import Mathlib

/-!
Verification of the Agent Development Stack ingestion core.

This file gives a shallow embedding, in Lean 4, of the ingestion
orchestration loop of the repository: the fingerprint generator and retry
executor (`src/ingestion/src/core/util/retry.ts`), and the plugin registry,
batch buffer, in-flight tracker and message dispatch loop of the ingestion
entry point (`src/ingestion/src/plugins/example/normalizer.ts`), together
with the example sensor normalizer plugin.

Modelling conventions:
* JavaScript objects are modelled by `JsonVal`; a JSON number is carried as
  its decimal rendering (the string produced by JS template interpolation),
  which is all the code under study ever observes of a number.
* External library primitives (`crypto.createHash("sha256")`, `JSON.parse`,
  `JSON.stringify`, the Kafka client) are parameters of the model: the code
  treats them as black boxes and so do we.
* The single-threaded cooperative runtime is modelled by explicit state
  passing; the only interleaving points of interest (the splice-before-await of the batch buffer and the in-flight set updates) are rendered as the
  synchronous state transitions the source performs between `await`s.
-/

-- ═══════════════════════════════════════════════════════════════════════
-- Lexicographic string comparison (JS `Array.prototype.sort` comparator)
-- ═══════════════════════════════════════════════════════════════════════

/-- Lexicographic comparison of character lists by code point, the order
`Object.keys(obj).sort()` uses on the ASCII keys occurring here. -/
def lexLeB : List Char → List Char → Bool
  | [], _ => true
  | _ :: _, [] => false
  | a :: as, b :: bs =>
    if a.toNat < b.toNat then true
    else if b.toNat < a.toNat then false
    else lexLeB as bs

/-- String order used by the key sort of fingerprint. -/
def strLe (a b : String) : Prop := lexLeB a.data b.data = true

instance : DecidableRel strLe := fun a b => by
  unfold strLe; infer_instance

theorem lexLeB_total : ∀ as bs : List Char, lexLeB as bs = true ∨ lexLeB bs as = true
  | [], _ => Or.inl rfl
  | _ :: _, [] => Or.inr rfl
  | a :: as, b :: bs => by
    simp only [lexLeB]
    rcases Nat.lt_trichotomy a.toNat b.toNat with h | h | h
    · left; simp [h]
    · have h1 : ¬ a.toNat < b.toNat := by omega
      have h2 : ¬ b.toNat < a.toNat := by omega
      rcases lexLeB_total as bs with ht | ht
      · left; simp [h1, h2, ht]
      · right; simp [h1, h2, ht]
    · right; simp [h]

theorem lexLeB_trans : ∀ as bs cs : List Char,
    lexLeB as bs = true → lexLeB bs cs = true → lexLeB as cs = true
  | [], _, _, _, _ => rfl
  | a :: as, [], _, h, _ => by simp [lexLeB] at h
  | _ :: _, _ :: _, [], _, h => by simp [lexLeB] at h
  | a :: as, b :: bs, c :: cs, h1, h2 => by
    simp only [lexLeB] at h1 h2 ⊢
    rcases Nat.lt_trichotomy a.toNat b.toNat with hab | hab | hab
    · rcases Nat.lt_trichotomy b.toNat c.toNat with hbc | hbc | hbc
      · have : a.toNat < c.toNat := by omega
        simp [this]
      · have : a.toNat < c.toNat := by omega
        simp [this]
      · exfalso
        have h2' : ¬ b.toNat < c.toNat := by omega
        simp [h2', hbc] at h2
    · rcases Nat.lt_trichotomy b.toNat c.toNat with hbc | hbc | hbc
      · have : a.toNat < c.toNat := by omega
        simp [this]
      · have h1' : ¬ a.toNat < c.toNat := by omega
        have h1'' : ¬ c.toNat < a.toNat := by omega
        have ha : ¬ a.toNat < b.toNat := by omega
        have hb : ¬ b.toNat < a.toNat := by omega
        have hc : ¬ b.toNat < c.toNat := by omega
        have hd : ¬ c.toNat < b.toNat := by omega
        simp [ha, hb] at h1
        simp [hc, hd] at h2
        simp [h1', h1'', lexLeB_trans as bs cs h1 h2]
      · exfalso
        have h2' : ¬ b.toNat < c.toNat := by omega
        simp [h2', hbc] at h2
    · exfalso
      have h1' : ¬ a.toNat < b.toNat := by omega
      simp [h1', hab] at h1

theorem lexLeB_antisymm : ∀ as bs : List Char,
    lexLeB as bs = true → lexLeB bs as = true → as = bs
  | [], [], _, _ => rfl
  | [], _ :: _, _, h => by simp [lexLeB] at h
  | _ :: _, [], h, _ => by simp [lexLeB] at h
  | a :: as, b :: bs, h1, h2 => by
    simp only [lexLeB] at h1 h2
    rcases Nat.lt_trichotomy a.toNat b.toNat with hab | hab | hab
    · exfalso
      have h2' : ¬ b.toNat < a.toNat := by omega
      simp [h2', hab] at h2
    · have ha : ¬ a.toNat < b.toNat := by omega
      have hb : ¬ b.toNat < a.toNat := by omega
      simp [ha, hb] at h1 h2
      have hchar : a = b := Char.ext (by
        apply UInt32.ext
        exact_mod_cast hab)
      rw [hchar, lexLeB_antisymm as bs h1 h2]
    · exfalso
      have h1' : ¬ a.toNat < b.toNat := by omega
      simp [h1', hab] at h1

instance : IsTotal String strLe :=
  ⟨fun a b => lexLeB_total a.data b.data⟩

instance : IsTrans String strLe :=
  ⟨fun a b c => lexLeB_trans a.data b.data c.data⟩

instance : IsAntisymm String strLe :=
  ⟨fun a b h1 h2 => by
    cases a; cases b
    exact congrArg String.mk (lexLeB_antisymm _ _ h1 h2)⟩

-- ═══════════════════════════════════════════════════════════════════════
-- Fingerprint generator (src/ingestion/src/core/util/retry.ts, fingerprint)
-- ═══════════════════════════════════════════════════════════════════════

/-- A JS object whose values have already been rendered by template
interpolation, i.e. the `Record<string, unknown>` argument of `fingerprint`
seen through the eyes of `${obj[k]}`: an association list of (key, rendered
value) pairs in insertion order with pairwise-distinct keys. -/
abbrev FieldMap := List (String × String)

/-- Lookup `obj[k]`: first (unique, for genuine JS objects) binding of `k`. -/
def lookupKey (k : String) : FieldMap → Option String
  | [] => none
  | (k', v) :: rest => if k' = k then some v else lookupKey k rest

/-- The sorted key list `Object.keys(obj).sort()`. -/
def sortedKeys (m : FieldMap) : List String :=
  List.insertionSort strLe (m.map Prod.fst)

/-- The join `Array.prototype.join("|")`. -/
def fpJoin : List String → String
  | [] => ""
  | [s] => s
  | s :: r :: rest => s ++ "|" ++ fpJoin (r :: rest)

/-- The pre-hash encoding built by `fingerprint`:
`Object.keys(obj).sort().map(k => k + "=" + obj[k]).join("|")`. -/
def fpEncode (m : FieldMap) : String :=
  fpJoin ((sortedKeys m).map (fun k => k ++ "=" ++ (lookupKey k m).getD ("")))

/-- Function `fingerprint` from `src/ingestion/src/core/util/retry.ts`: the SHA-256
hex digest of the sorted `key=value` encoding.  The digest primitive
`crypto.createHash("sha256").update(s).digest("hex")` is the external
parameter `hash`. -/
def fingerprint (hash : String → String) (m : FieldMap) : String :=
  hash (fpEncode m)

-- ═══════════════════════════════════════════════════════════════════════
-- Retry executor (src/ingestion/src/core/util/retry.ts, retry)
-- ═══════════════════════════════════════════════════════════════════════

/-- The retry loop of `retry`.  `fn i` is the outcome of the `(i+1)`-th
invocation of the wrapped operation; `attempt` is the mutable
`attempt` counter of the source.  The backoff sleep (`baseMs * 2 ** (attempt-1)` scaled by
jitter) only delays the next call and is dropped from the model.  Returns
the total number of invocations performed together with the final outcome
(`Except.error e` models `throw err`). -/
def retryGo (fn : Nat → Except ε α) (retries : Nat) (attempt : Nat) :
    Nat × Except ε α :=
  match fn attempt with
  | .ok a => (attempt + 1, .ok a)
  | .error e =>
    if attempt + 1 > retries then (attempt + 1, .error e)
    else retryGo fn retries (attempt + 1)
termination_by retries + 1 - attempt
decreasing_by omega

/-- The call `retry(fn, { retries })`, starting from `attempt = 0`. -/
def retry (fn : Nat → Except ε α) (retries : Nat) : Nat × Except ε α :=
  retryGo fn retries 0

theorem retryGo_all_fail (fn : Nat → Except ε α) (r : Nat) :
    ∀ n attempt, r - attempt = n → attempt ≤ r →
    (∀ i, attempt ≤ i → i ≤ r → ∃ e, fn i = Except.error e) →
    retryGo fn r attempt = (r + 1, fn r) := by
  intro n
  induction n with
  | zero =>
    intro attempt hn hle hfail
    have har : attempt = r := by omega
    subst har
    obtain ⟨e, he⟩ := hfail attempt le_rfl le_rfl
    rw [retryGo, he]
    simp [he]
  | succ n ih =>
    intro attempt hn hle hfail
    have hlt : attempt < r := by omega
    obtain ⟨e, he⟩ := hfail attempt le_rfl (by omega)
    rw [retryGo, he]
    have hng : ¬ attempt + 1 > r := by omega
    simp only [hng, if_false]
    exact ih (attempt + 1) (by omega) (by omega)
      (fun i hi1 hi2 => hfail i (by omega) hi2)

theorem retryGo_succeeds (fn : Nat → Except ε α) (r k : Nat) (a : α) :
    ∀ n attempt, k - attempt = n → attempt ≤ k → k ≤ r →
    (∀ i, attempt ≤ i → i < k → ∃ e, fn i = Except.error e) →
    fn k = Except.ok a →
    retryGo fn r attempt = (k + 1, Except.ok a) := by
  intro n
  induction n with
  | zero =>
    intro attempt hn hak hkr hfail hok
    have hak' : attempt = k := by omega
    subst hak'
    rw [retryGo, hok]
  | succ n ih =>
    intro attempt hn hak hkr hfail hok
    have hlt : attempt < k := by omega
    obtain ⟨e, he⟩ := hfail attempt le_rfl hlt
    rw [retryGo, he]
    have hng : ¬ attempt + 1 > r := by omega
    simp only [hng, if_false]
    exact ih (attempt + 1) (by omega) (by omega) hkr
      (fun i hi1 hi2 => hfail i (by omega) hi2) hok

/-- C2: if the operation fails on every invocation, `retry(op, {retries: r})`
invokes it exactly `r + 1` times and rethrows the exact error of the final
invocation; if it first succeeds on (0-indexed) invocation `k ≤ r`, `retry`
returns that success after exactly `k + 1` invocations and never invokes the
operation again. -/
theorem retry_spec (fn : Nat → Except ε α) (r : Nat) :
    ((∀ i, i ≤ r → ∃ e, fn i = Except.error e) →
      retry fn r = (r + 1, fn r))
    ∧ (∀ k a, k ≤ r → (∀ i, i < k → ∃ e, fn i = Except.error e) →
      fn k = Except.ok a →
      retry fn r = (k + 1, Except.ok a)) := by
  constructor
  · intro hfail
    exact retryGo_all_fail fn r r 0 (by omega) (by omega)
      (fun i _ hi => hfail i hi)
  · intro k a hkr hfail hok
    exact retryGo_succeeds fn r k a k 0 (by omega) (by omega) hkr
      (fun i _ hi => hfail i hi) hok

/-- Witness for C2 at concrete inputs: an always-failing operation with
`retries = 2` is invoked exactly 3 times and the error of invocation 3 is
rethrown; an operation succeeding on its 2nd invocation stops after 2. -/
theorem retry_spec_witness :
    retry (fun i => (Except.error i : Except Nat Nat)) 2 = (3, Except.error 2)
    ∧ retry (fun i => if i = 1 then Except.ok 42 else (Except.error i : Except Nat Nat)) 2
      = (2, Except.ok 42) := by
  constructor
  · have h := (retry_spec (fun i => (Except.error i : Except Nat Nat)) 2).1
      (fun i _ => ⟨i, rfl⟩)
    simpa using h
  · exact (retry_spec (fun i => if i = 1 then Except.ok 42 else (Except.error i : Except Nat Nat)) 2).2
      1 42 (by decide) (fun i hi => ⟨i, by interval_cases i; rfl⟩) (by rfl)

-- ═══════════════════════════════════════════════════════════════════════
-- Association-list lookup lemmas
-- ═══════════════════════════════════════════════════════════════════════

theorem strData_inj {a b : String} (h : a.data = b.data) : a = b := by
  cases a; cases b
  exact congrArg String.mk (by simpa using h)

theorem lookupKey_some_mem {k v : String} :
    ∀ {m : FieldMap}, lookupKey k m = some v → (k, v) ∈ m := by
  intro m
  induction m with
  | nil => intro h; simp [lookupKey] at h
  | cons p rest ih =>
    intro h
    obtain ⟨k', v'⟩ := p
    by_cases hk : k' = k
    · subst hk
      simp [lookupKey] at h
      simp [h]
    · simp [lookupKey, hk] at h
      exact List.mem_cons_of_mem _ (ih h)

theorem lookupKey_none_iff {k : String} :
    ∀ {m : FieldMap}, lookupKey k m = none ↔ k ∉ m.map Prod.fst := by
  intro m
  induction m with
  | nil => simp [lookupKey]
  | cons p rest ih =>
    obtain ⟨k', v'⟩ := p
    by_cases hk : k' = k
    · subst hk
      simp [lookupKey]
    · simp [lookupKey, hk, ih, Ne.symm hk]

theorem mem_lookupKey {k v : String} :
    ∀ {m : FieldMap}, (m.map Prod.fst).Nodup → (k, v) ∈ m →
    lookupKey k m = some v := by
  intro m
  induction m with
  | nil => intro _ h; simp at h
  | cons p rest ih =>
    intro hnd hmem
    obtain ⟨k', v'⟩ := p
    simp only [List.map_cons, List.nodup_cons] at hnd
    rcases List.mem_cons.mp hmem with heq | htail
    · obtain ⟨hk, hv⟩ := Prod.mk.injEq .. ▸ heq
      injection heq with h1 h2
      subst h1; subst h2
      simp [lookupKey]
    · have hk : k' ≠ k := by
        intro hc
        subst hc
        exact hnd.1 (List.mem_map.mpr ⟨(k', v), htail, rfl⟩)
      simp [lookupKey, hk]
      exact ih hnd.2 htail

theorem lookupKey_perm {m1 m2 : FieldMap}
    (h1 : (m1.map Prod.fst).Nodup) (hp : m1.Perm m2) (k : String) :
    lookupKey k m1 = lookupKey k m2 := by
  have h2 : (m2.map Prod.fst).Nodup := ((hp.map Prod.fst).nodup_iff).mp h1
  cases hv : lookupKey k m1 with
  | none =>
    have hk : k ∉ m1.map Prod.fst := lookupKey_none_iff.mp hv
    have hk2 : k ∉ m2.map Prod.fst := fun hc =>
      hk ((hp.map Prod.fst).mem_iff.mpr hc)
    exact (lookupKey_none_iff.mpr hk2).symm
  | some v =>
    have hm : (k, v) ∈ m1 := lookupKey_some_mem hv
    exact (mem_lookupKey h2 (hp.mem_iff.mp hm)).symm

theorem map_lookup_self :
    ∀ {m : FieldMap}, (m.map Prod.fst).Nodup →
    (m.map Prod.fst).map (fun k => (k, (lookupKey k m).getD (""))) = m := by
  intro m
  induction m with
  | nil => intro _; rfl
  | cons p rest ih =>
    intro hnd
    obtain ⟨k0, v0⟩ := p
    simp only [List.map_cons, List.nodup_cons] at hnd ⊢
    congr 1
    · simp [lookupKey]
    · have hcong : ∀ k ∈ rest.map Prod.fst,
          (fun k => (k, (lookupKey k ((k0, v0) :: rest)).getD (""))) k
          = (fun k => (k, (lookupKey k rest).getD (""))) k := by
        intro k hk
        have hne : k0 ≠ k := fun hc => hnd.1 (hc ▸ hk)
        simp [lookupKey, hne]
      rw [List.map_congr_left hcong, ih hnd.2]

theorem mem_sortedKeys {k : String} {m : FieldMap} :
    k ∈ sortedKeys m ↔ k ∈ m.map Prod.fst :=
  (List.perm_insertionSort strLe (m.map Prod.fst)).mem_iff

-- ═══════════════════════════════════════════════════════════════════════
-- C1: fingerprint is invariant under key-order permutation
-- ═══════════════════════════════════════════════════════════════════════

theorem sortedKeys_perm {m1 m2 : FieldMap} (hp : m1.Perm m2) :
    sortedKeys m1 = sortedKeys m2 := by
  refine List.eq_of_perm_of_sorted ?_
    (List.sorted_insertionSort strLe _) (List.sorted_insertionSort strLe _)
  exact (List.perm_insertionSort strLe _).trans
    ((hp.map Prod.fst).trans (List.perm_insertionSort strLe _).symm)

/-- C1: for every field map and every key-order permutation of it (same
set of key-value bindings, keys pairwise distinct as in a JS object),
`fingerprint` returns the same string: it depends only on the set of
(key, value) pairs, not on insertion order.  Holds for any digest
function `hash`. -/
theorem fingerprint_perm_invariant (hash : String → String)
    {m1 m2 : FieldMap} (h1 : (m1.map Prod.fst).Nodup) (hp : m1.Perm m2) :
    fingerprint hash m1 = fingerprint hash m2 := by
  unfold fingerprint fpEncode
  congr 1
  rw [sortedKeys_perm hp]
  refine congrArg fpJoin (List.map_congr_left ?_)
  intro k _
  rw [lookupKey_perm h1 hp k]

/-- Witness for C1: the two insertion orders of `{b: "2", a: "1"}` yield the
same fingerprint (digest instantiated with the identity). -/
theorem fingerprint_perm_invariant_witness :
    fingerprint id [("b", "2"), ("a", "1")] = fingerprint id [("a", "1"), ("b", "2")] :=
  fingerprint_perm_invariant id (by decide) (by decide)

-- ═══════════════════════════════════════════════════════════════════════
-- C9: injectivity analysis of the pre-hash encoding
-- ═══════════════════════════════════════════════════════════════════════

theorem append_sep_inj (c : Char) :
    ∀ (p q r1 r2 : List Char), c ∉ p → c ∉ q →
    p ++ c :: r1 = q ++ c :: r2 → p = q ∧ r1 = r2 := by
  intro p
  induction p with
  | nil =>
    intro q r1 r2 _ hq h
    cases q with
    | nil => simpa using h
    | cons b q' =>
      simp only [List.nil_append, List.cons_append, List.cons.injEq] at h
      exact absurd (h.1 ▸ List.mem_cons_self c _) hq
  | cons a p' ih =>
    intro q r1 r2 hp hq h
    cases q with
    | nil =>
      simp only [List.cons_append, List.nil_append, List.cons.injEq] at h
      exact absurd (h.1 ▸ List.mem_cons_self a _) (h.1 ▸ hp)
    | cons b q' =>
      simp only [List.cons_append, List.cons.injEq] at h
      obtain ⟨hab, hrest⟩ := h
      have hp' : c ∉ p' := fun hm => hp (List.mem_cons_of_mem _ hm)
      have hq' : c ∉ q' := fun hm => hq (List.mem_cons_of_mem _ hm)
      obtain ⟨h1, h2⟩ := ih q' r1 r2 hp' hq' hrest
      exact ⟨by rw [hab, h1], h2⟩

theorem data_append_eqch (s t : String) :
    (s ++ "=" ++ t).data = s.data ++ '=' :: t.data := by
  rw [String.data_append, String.data_append]
  simp

theorem data_append_pipe (s t : String) :
    (s ++ "|" ++ t).data = s.data ++ '|' :: t.data := by
  rw [String.data_append, String.data_append]
  simp

theorem piece_inj {k1 v1 k2 v2 : String}
    (hk1 : '=' ∉ k1.data) (hk2 : '=' ∉ k2.data)
    (h : k1 ++ "=" ++ v1 = k2 ++ "=" ++ v2) : k1 = k2 ∧ v1 = v2 := by
  have hd := congrArg String.data h
  rw [data_append_eqch, data_append_eqch] at hd
  obtain ⟨h1, h2⟩ := append_sep_inj '=' _ _ _ _ hk1 hk2 hd
  exact ⟨strData_inj h1, strData_inj h2⟩

theorem fpJoin_inj : ∀ l1 l2 : List String,
    (∀ s ∈ l1, s.data ≠ [] ∧ '|' ∉ s.data) →
    (∀ s ∈ l2, s.data ≠ [] ∧ '|' ∉ s.data) →
    fpJoin l1 = fpJoin l2 → l1 = l2
  | [], [], _, _, _ => rfl
  | [], [t], _, h2, h => by
    have := congrArg String.data h
    simp only [fpJoin] at this
    exact absurd this.symm (h2 t (List.mem_singleton.mpr rfl)).1
  | [], t :: u :: r, _, _, h => by
    have hd := congrArg String.data h
    simp only [fpJoin, data_append_pipe] at hd
    exact absurd hd.symm (by simp)
  | [s], [], h1, _, h => by
    have := congrArg String.data h
    simp only [fpJoin] at this
    exact absurd this (h1 s (List.mem_singleton.mpr rfl)).1
  | s :: u :: r, [], _, h2, h => by
    have hd := congrArg String.data h
    simp only [fpJoin, data_append_pipe] at hd
    exact absurd hd (by simp)
  | [s], [t], _, _, h => by
    simp only [fpJoin] at h
    rw [h]
  | [s], t :: u :: r, h1, _, h => by
    have hd := congrArg String.data h
    simp only [fpJoin, data_append_pipe] at hd
    have hmem : '|' ∈ s.data := hd ▸ List.mem_append_right _ (List.mem_cons_self _ _)
    exact absurd hmem (h1 s (List.mem_singleton.mpr rfl)).2
  | s :: u :: r, [t], _, h2, h => by
    have hd := congrArg String.data h
    simp only [fpJoin, data_append_pipe] at hd
    have hmem : '|' ∈ t.data := hd ▸ List.mem_append_right _ (List.mem_cons_self _ _)
    exact absurd hmem (h2 t (List.mem_singleton.mpr rfl)).2
  | s :: u1 :: r1, t :: u2 :: r2, h1, h2, h => by
    have hd := congrArg String.data h
    simp only [fpJoin, data_append_pipe] at hd
    obtain ⟨hst, hjoin⟩ := append_sep_inj '|' _ _ _ _
      (h1 s (List.mem_cons_self _ _)).2 (h2 t (List.mem_cons_self _ _)).2 hd
    have htail := fpJoin_inj (u1 :: r1) (u2 :: r2)
      (fun x hx => h1 x (List.mem_cons_of_mem _ hx))
      (fun x hx => h2 x (List.mem_cons_of_mem _ hx))
      (strData_inj hjoin)
    rw [strData_inj hst, htail]

theorem mapPieces_inj : ∀ (ks1 ks2 : List String) (f1 f2 : String → String),
    (∀ k ∈ ks1, '=' ∉ k.data) → (∀ k ∈ ks2, '=' ∉ k.data) →
    ks1.map (fun k => k ++ "=" ++ f1 k) = ks2.map (fun k => k ++ "=" ++ f2 k) →
    ks1.map (fun k => (k, f1 k)) = ks2.map (fun k => (k, f2 k))
  | [], [], _, _, _, _, _ => rfl
  | [], _ :: _, _, _, _, _, h => by simp at h
  | _ :: _, [], _, _, _, _, h => by simp at h
  | k1 :: t1, k2 :: t2, f1, f2, h1, h2, h => by
    simp only [List.map_cons, List.cons.injEq] at h ⊢
    obtain ⟨hk, hv⟩ := piece_inj (h1 k1 (List.mem_cons_self _ _))
      (h2 k2 (List.mem_cons_self _ _)) h.1
    subst hk
    exact ⟨by rw [hv], mapPieces_inj t1 t2 f1 f2
      (fun k hk' => h1 k (List.mem_cons_of_mem _ hk'))
      (fun k hk' => h2 k (List.mem_cons_of_mem _ hk')) h.2⟩

/-- C9 counterexample: the pre-hash encoding is not injective on field
maps, so distinct maps can share a fingerprint even for a collision-free
digest (instantiated here with the injective digest `id`).  The single
binding `a = "1|b=2"` and the two bindings `a = "1", b = "2"` encode to the
same string `"a=1|b=2"`. -/
theorem fingerprint_injective_counterexample :
    fingerprint id [("a", "1|b=2")] = fingerprint id [("a", "1"), ("b", "2")]
    ∧ ([("a", "1|b=2")] : FieldMap) ≠ [("a", "1"), ("b", "2")]
    ∧ ¬ List.Perm ([("a", "1|b=2")] : FieldMap) [("a", "1"), ("b", "2")] := by
  refine ⟨rfl, by decide, by decide⟩

/-- C9 (amended): the pre-hash encoding is injective (up to permutation,
i.e. as a function of the set of bindings) only on field maps whose keys
contain neither `=` nor `|` and whose values contain no `|`; for such maps,
equal encodings force the same set of (key, value) bindings, so distinct
maps get distinct fingerprints whenever the 256-bit digest is
collision-free.  Without that character restriction injectivity fails
(see the counterexample). -/
theorem fpEncode_inj_on_clean_maps (m1 m2 : FieldMap)
    (h1 : (m1.map Prod.fst).Nodup) (h2 : (m2.map Prod.fst).Nodup)
    (hc1 : ∀ p ∈ m1, '=' ∉ p.1.data ∧ '|' ∉ p.1.data ∧ '|' ∉ p.2.data)
    (hc2 : ∀ p ∈ m2, '=' ∉ p.1.data ∧ '|' ∉ p.1.data ∧ '|' ∉ p.2.data)
    (heq : fpEncode m1 = fpEncode m2) : m1.Perm m2 := by
  have hkeyfact : ∀ (m : FieldMap),
      (m.map Prod.fst).Nodup →
      (∀ p ∈ m, '=' ∉ p.1.data ∧ '|' ∉ p.1.data ∧ '|' ∉ p.2.data) →
      ∀ k ∈ sortedKeys m, '=' ∉ k.data ∧ '|' ∉ k.data ∧
        '|' ∉ ((lookupKey k m).getD ("")).data := by
    intro m hnd hc k hk
    obtain ⟨⟨k', v⟩, hpm, hfst⟩ := List.mem_map.mp (mem_sortedKeys.mp hk)
    subst hfst
    have hlk : lookupKey k' m = some v := mem_lookupKey hnd hpm
    rw [hlk]
    exact ⟨(hc _ hpm).1, (hc _ hpm).2.1, (hc _ hpm).2.2⟩
  have hpiece : ∀ (m : FieldMap),
      (m.map Prod.fst).Nodup →
      (∀ p ∈ m, '=' ∉ p.1.data ∧ '|' ∉ p.1.data ∧ '|' ∉ p.2.data) →
      ∀ s ∈ (sortedKeys m).map
        (fun k => k ++ "=" ++ (lookupKey k m).getD ("")), s.data ≠ [] ∧ '|' ∉ s.data := by
    intro m hnd hc s hs
    obtain ⟨k, hk, hks⟩ := List.mem_map.mp hs
    obtain ⟨hke, hkp, hvp⟩ := hkeyfact m hnd hc k hk
    subst hks
    rw [data_append_eqch]
    constructor
    · simp
    · intro hmem
      rcases List.mem_append.mp hmem with hmem | hmem
      · exact hkp hmem
      · rcases List.mem_cons.mp hmem with hmem | hmem
        · exact absurd hmem.symm (by decide)
        · exact hvp hmem
  have hmaps := fpJoin_inj _ _ (hpiece m1 h1 hc1) (hpiece m2 h2 hc2) heq
  have hpairs := mapPieces_inj (sortedKeys m1) (sortedKeys m2) _ _
    (fun k hk => (hkeyfact m1 h1 hc1 k hk).1)
    (fun k hk => (hkeyfact m2 h2 hc2 k hk).1) hmaps
  have hp1 : ((m1.map Prod.fst).map (fun k => (k, (lookupKey k m1).getD ("")))).Perm
      ((sortedKeys m1).map (fun k => (k, (lookupKey k m1).getD ("")))) :=
    (List.perm_insertionSort strLe _).symm.map _
  have hq1 : m1.Perm ((m1.map Prod.fst).map (fun k => (k, (lookupKey k m1).getD ("")))) := by
    rw [map_lookup_self h1]
  have hm1 : m1.Perm ((sortedKeys m1).map (fun k => (k, (lookupKey k m1).getD ("")))) :=
    hq1.trans hp1
  have hp2 : ((sortedKeys m2).map (fun k => (k, (lookupKey k m2).getD ("")))).Perm
      ((m2.map Prod.fst).map (fun k => (k, (lookupKey k m2).getD ("")))) :=
    (List.perm_insertionSort strLe _).map _
  have hq2 : ((m2.map Prod.fst).map (fun k => (k, (lookupKey k m2).getD ("")))).Perm m2 := by
    rw [map_lookup_self h2]
  have hm2 : ((sortedKeys m2).map (fun k => (k, (lookupKey k m2).getD ("")))).Perm m2 :=
    hp2.trans hq2
  exact (hm1.trans (hpairs ▸ hm2))

/-- Witness for the amended C9 theorem: two concrete clean maps with equal
encodings are forced to carry the same set of bindings. -/
theorem fpEncode_inj_on_clean_maps_witness :
    List.Perm ([("b", "2"), ("a", "1")] : FieldMap) [("a", "1"), ("b", "2")] :=
  fpEncode_inj_on_clean_maps [("b", "2"), ("a", "1")] [("a", "1"), ("b", "2")]
    (by decide) (by decide) (by decide) (by decide) rfl

-- ═══════════════════════════════════════════════════════════════════════
-- JSON values and zod schema validators (src/ingestion/src/core/schemas.ts)
-- ═══════════════════════════════════════════════════════════════════════

/-- A JavaScript/JSON value as seen by the dispatch loop.  A number is
carried as its decimal rendering, which is the only view the code takes of
one (template interpolation and comparison against the zod number check). -/
inductive JsonVal where
  | jnull
  | jbool (b : Bool)
  | jnum (rendering : String)
  | jstr (s : String)
  | jarr (items : List JsonVal)
  | jobj (fields : List (String × JsonVal))

/-- First binding of `k` in a JS object field list (`obj[k]`). -/
def lookupField (k : String) : List (String × JsonVal) → Option JsonVal
  | [] => none
  | (k', v) :: rest => if k' = k then some v else lookupField k rest

/-- Access `obj.k` (`undefined`, i.e. `none`, on non-objects and absent keys). -/
def JsonVal.getField : JsonVal → String → Option JsonVal
  | .jobj fields, k => lookupField k fields
  | _, _ => none

/-- Check `z.string()` on an optionally-present field. -/
def isStrField : Option JsonVal → Bool
  | some (.jstr _) => true
  | _ => false

/-- Check `z.string().min(1)` on an optionally-present field. -/
def isNonemptyStrField : Option JsonVal → Bool
  | some (.jstr s) => !(s == "")
  | _ => false

/-- Check `z.number()` on an optionally-present field. -/
def isNumField : Option JsonVal → Bool
  | some (.jnum _) => true
  | _ => false

/-- Check `z.object(...)` / `z.record(...)` shape requirement. -/
def isObjField : Option JsonVal → Bool
  | some (.jobj _) => true
  | _ => false

/-- String content of a field, with the empty string standing in for the
unreachable `undefined` case (used only after a schema check passed). -/
def asStr : Option JsonVal → String
  | some (.jstr s) => s
  | _ => ""

/-- Rendering of a numeric field (same convention as `asStr`). -/
def asNum : Option JsonVal → String
  | some (.jnum r) => r
  | _ => ""

/-- Optional-chaining string access `obj.a?.b` used for the batch key
`ev.event?.fingerprint`: `none` models `undefined`. -/
def optStrField : Option JsonVal → Option String
  | some (.jstr s) => some s
  | _ => none

/-- Predicate `RawMessageSchema.safeParse(obj).success` from
`src/ingestion/src/core/schemas.ts`: envelope with non-empty `tool` and
`runId` strings and an unconstrained `data` payload. -/
def rawMessageValid (v : JsonVal) : Bool :=
  match v with
  | .jobj _ => isNonemptyStrField (v.getField ("tool"))
      && isNonemptyStrField (v.getField ("runId"))
  | _ => false

/-- Predicate `DomainEventSchema.safeParse(obj).success` from
`src/ingestion/src/core/schemas.ts`: `specVersion` string, `event` object
with non-empty `event_type` and `fingerprint`, `meta` record. -/
def domainEventValid (v : JsonVal) : Bool :=
  match v with
  | .jobj _ => isStrField (v.getField ("specVersion"))
      && (match v.getField ("event") with
          | some ev => isNonemptyStrField (ev.getField ("event_type"))
              && isNonemptyStrField (ev.getField ("fingerprint"))
          | none => false)
      && isObjField (v.getField ("meta"))
  | _ => false

-- ═══════════════════════════════════════════════════════════════════════
-- Example normalizer plugin (src/ingestion/src/plugins/example/normalizer.ts)
-- ═══════════════════════════════════════════════════════════════════════

/-- Predicate `RawSensorSchema.safeParse(raw).success`: `tool` is the literal
`"sensor_report"`, `schemaVersion` and `runId` are strings, `data` carries
`sensorId`, `unit`, `location` strings and a numeric `value`. -/
def rawSensorValid (v : JsonVal) : Bool :=
  (match v.getField ("tool") with
   | some (.jstr s) => s == "sensor_report"
   | _ => false)
    && isStrField (v.getField ("schemaVersion"))
    && isStrField (v.getField ("runId"))
    && (match v.getField ("data") with
        | some d => isStrField (d.getField ("sensorId"))
            && isNumField (d.getField ("value"))
            && isStrField (d.getField ("unit"))
            && isStrField (d.getField ("location"))
        | none => false)

/-- The output validation schema local to the plugin (`DomainEventSchema`
in `normalizer.ts`): literal `specVersion "1.0"`, literal
`event_type "SENSOR_READING"`, string fingerprint, and the ten typed
`meta` fields. -/
def sensorDomainEventValid (v : JsonVal) : Bool :=
  (match v.getField ("specVersion") with
   | some (.jstr s) => s == "1.0"
   | _ => false)
    && (match v.getField ("event") with
        | some ev => (match ev.getField ("event_type") with
            | some (.jstr s) => s == "SENSOR_READING"
            | _ => false)
            && isStrField (ev.getField ("fingerprint"))
        | none => false)
    && (match v.getField ("meta") with
        | some m => isStrField (m.getField ("sensorId"))
            && isStrField (m.getField ("sensorType"))
            && isNumField (m.getField ("value"))
            && isStrField (m.getField ("unit"))
            && isStrField (m.getField ("location"))
            && isStrField (m.getField ("toolRunId"))
            && isStrField (m.getField ("normalizerVersion"))
            && isStrField (m.getField ("source"))
            && isStrField (m.getField ("rawTool"))
            && isStrField (m.getField ("rawRunId"))
        | none => false)

/-- Does `pat` occur as a contiguous run inside `l`
(`String.prototype.includes`)? -/
def hasInfix (pat : List Char) : List Char → Bool
  | [] => pat.isEmpty
  | c :: t => pat.isPrefixOf (c :: t) || hasInfix pat t

/-- Check `s.includes(pat)`. -/
def strIncludes (s pat : String) : Bool := hasInfix pat.data s.data

/-- Lowering `s.toLowerCase()` (per-character; the sensor ids in play are
ASCII). -/
def toLowerStr (s : String) : String := ⟨s.data.map Char.toLower⟩

/-- Function `deriveSensorType` from `normalizer.ts`: heuristic classification of a
sensor id. -/
def deriveSensorType (sensorId : String) : String :=
  let id := toLowerStr sensorId
  if strIncludes id ("temp") || strIncludes id ("temperature") then ("temperature")
  else if strIncludes id ("humid") || strIncludes id ("moisture") then ("humidity")
  else if strIncludes id ("pressure") || strIncludes id ("press") then ("pressure")
  else if strIncludes id ("light") || strIncludes id ("lux") then ("light")
  else if strIncludes id ("motion") || strIncludes id ("pir") then ("motion")
  else if strIncludes id ("air") || strIncludes id ("co2") then ("air_quality")
  else ("generic")

/-- The domain event object built by the example normalizer for a parsed
sensor report (the object literal at lines 88-106 of `normalizer.ts`),
with the fingerprint argument map exactly as at lines 80-86. -/
def sensorEvent (hash : String → String) (raw : JsonVal) : JsonVal :=
  let data := (raw.getField ("data")).getD .jnull
  let sensorId := asStr (data.getField ("sensorId"))
  let valueR := asNum (data.getField ("value"))
  let unit := asStr (data.getField ("unit"))
  let location := asStr (data.getField ("location"))
  let runId := asStr (raw.getField ("runId"))
  let tool := asStr (raw.getField ("tool"))
  let fp := fingerprint hash
    [("type", "SENSOR_READING"), ("sensor", sensorId), ("location", location),
     ("value", valueR), ("unit", unit)]
  .jobj
    [("specVersion", .jstr ("1.0")),
     ("event", .jobj [("event_type", .jstr ("SENSOR_READING")), ("fingerprint", .jstr fp)]),
     ("meta", .jobj
       [("sensorId", .jstr sensorId),
        ("sensorType", .jstr (deriveSensorType sensorId)),
        ("value", .jnum valueR),
        ("unit", .jstr unit),
        ("location", .jstr location),
        ("toolRunId", .jstr runId),
        ("normalizerVersion", .jstr ("0.0.3-typed")),
        ("source", .jstr ("central")),
        ("rawTool", .jstr tool),
        ("rawRunId", .jstr runId)])]

/-- The example normalizer `normalize` from `normalizer.ts`: `null` (here
`none`) when `RawSensorSchema` rejects the input, otherwise a single
SENSOR_READING event.  The trailing `DomainEventSchema.parse(domain)` of
the source always succeeds on this construction (proved as part of the C8
theorem), so it contributes no further behaviour. -/
def sensorNormalize (hash : String → String) (raw : JsonVal) : Option (List JsonVal) :=
  if rawSensorValid raw then some [sensorEvent hash raw] else none

-- ═══════════════════════════════════════════════════════════════════════
-- C8: the end-to-end normalizer scenario
-- ═══════════════════════════════════════════════════════════════════════

/-- The raw message of the C8 scenario, exactly as the claim states it:
no `schemaVersion` field. -/
def c8Input : JsonVal :=
  .jobj [("tool", .jstr ("sensor_report")), ("runId", .jstr ("r1")),
         ("data", .jobj [("sensorId", .jstr ("temp-1")), ("value", .jnum ("21.5")),
                         ("unit", .jstr ("celsius")), ("location", .jstr ("kitchen"))])]

/-- The C8 raw message completed with the `schemaVersion` string that
`RawSensorSchema` requires. -/
def c8InputAmended : JsonVal :=
  .jobj [("tool", .jstr ("sensor_report")), ("schemaVersion", .jstr ("1.0")),
         ("runId", .jstr ("r1")),
         ("data", .jobj [("sensorId", .jstr ("temp-1")), ("value", .jnum ("21.5")),
                         ("unit", .jstr ("celsius")), ("location", .jstr ("kitchen"))])]

/-- The field map the claim says the fingerprint is computed over. -/
def c8Fields : FieldMap :=
  [("type", "SENSOR_READING"), ("sensor", "temp-1"), ("location", "kitchen"),
   ("value", "21.5"), ("unit", "celsius")]

/-- C8 counterexample: on the exact input of the claim the example
normalizer returns `null` (zero events), not one SENSOR_READING event,
because `RawSensorSchema` also demands a `schemaVersion` string which the
claimed input lacks. -/
theorem sensorNormalize_c8_counterexample :
    sensorNormalize id c8Input = none ∧ rawSensorValid c8Input = false := by
  exact ⟨rfl, rfl⟩

/-- C8 (amended): once the input also carries a `schemaVersion` string, the
example normalizer returns exactly one domain event with
`event.event_type = "SENSOR_READING"`, `meta.sensorType = "temperature"`,
and `event.fingerprint = fingerprint({type, sensor, location, value,
unit})` over the claimed field map; the event moreover passes the own
output schema of the plugin, so the trailing `DomainEventSchema.parse` of
the source is a no-op.  Holds for every digest function. -/
theorem sensorNormalize_c8_scenario (hash : String → String) :
    sensorNormalize hash c8InputAmended = some [sensorEvent hash c8InputAmended]
    ∧ ((sensorEvent hash c8InputAmended).getField ("event")).bind (fun e => e.getField ("event_type"))
        = some (.jstr ("SENSOR_READING"))
    ∧ ((sensorEvent hash c8InputAmended).getField ("meta")).bind (fun m => m.getField ("sensorType"))
        = some (.jstr ("temperature"))
    ∧ ((sensorEvent hash c8InputAmended).getField ("event")).bind (fun e => e.getField ("fingerprint"))
        = some (.jstr (fingerprint hash c8Fields))
    ∧ sensorDomainEventValid (sensorEvent hash c8InputAmended) = true := by
  exact ⟨rfl, rfl, rfl, rfl, rfl⟩

-- ═══════════════════════════════════════════════════════════════════════
-- Batch buffer (normalizer.ts: `batch`, `flushBatch`, the flush timer)
-- ═══════════════════════════════════════════════════════════════════════

/-- The in-memory outgoing buffer (`const batch = []`). -/
structure BatchBuffer (M : Type) where
  buffer : List M

/-- Push `batch.push(entry)` (synchronous append). -/
def pushMsg (m : M) (s : BatchBuffer M) : BatchBuffer M :=
  ⟨s.buffer ++ [m]⟩

/-- The synchronous head of `flushBatch`: `if (!batch.length) return;` then
`const sending = batch.splice(0, batch.length)`.  Both the capture and the
clearing happen in this single step, before the `await
retry(() => producer.sendBatch({topicMessages: sending}))`; the returned
`Option` is the one batched send submitted (or `none` when the flush sends
nothing). -/
def flushCapture (s : BatchBuffer M) : Option (List M) × BatchBuffer M :=
  if s.buffer.isEmpty then (none, s) else (some s.buffer, ⟨[]⟩)

/-- One event of the buffer trace: a push from a RAW dispatch, or a flush
fired by the interval timer or the shutdown handler.  Pushes that occur
while the asynchronous send of a flush is in flight are exactly the pushes
sequenced after that flush event (the capture-and-clear itself is atomic in
the single-threaded runtime). -/
inductive BatchEv (M : Type) where
  | push (m : M)
  | flush

/-- Run a trace of pushes and flushes; returns the final buffer and the
list of batched sends performed, in chronological order. -/
def runBatch : List (BatchEv M) → BatchBuffer M → BatchBuffer M × List (List M)
  | [], s => (s, [])
  | .push m :: evs, s => runBatch evs (pushMsg m s)
  | .flush :: evs, s =>
    match flushCapture s with
    | (none, s') => runBatch evs s'
    | (some b, s') =>
      let r := runBatch evs s'
      (r.1, b :: r.2)

/-- The messages pushed by a trace, in order. -/
def pushedOf : List (BatchEv M) → List M
  | [] => []
  | .push m :: evs => m :: pushedOf evs
  | .flush :: evs => pushedOf evs

theorem runBatch_pushes (evs : List (BatchEv M)) :
    ∀ (ms : List M) (s : BatchBuffer M),
    runBatch ((ms.map BatchEv.push) ++ evs) s = runBatch evs ⟨s.buffer ++ ms⟩ := by
  intro ms
  induction ms with
  | nil => intro s; simp
  | cons m rest ih =>
    intro s
    have hsplit : (List.map BatchEv.push (m :: rest)) ++ evs
        = BatchEv.push m :: (List.map BatchEv.push rest ++ evs) := by simp
    rw [hsplit]
    show runBatch (List.map BatchEv.push rest ++ evs) (pushMsg m s)
      = runBatch evs ⟨s.buffer ++ m :: rest⟩
    rw [ih]
    simp [pushMsg]

theorem runBatch_flush_empty {evs : List (BatchEv M)} {s : BatchBuffer M}
    (h : s.buffer.isEmpty = true) :
    runBatch (BatchEv.flush :: evs) s = runBatch evs s := by
  simp [runBatch, flushCapture, h]

theorem runBatch_flush_nonempty {evs : List (BatchEv M)} {s : BatchBuffer M}
    (h : ¬ s.buffer.isEmpty = true) :
    runBatch (BatchEv.flush :: evs) s
      = ((runBatch evs ⟨[]⟩).1, s.buffer :: (runBatch evs ⟨[]⟩).2) := by
  simp [runBatch, flushCapture, h]

theorem runBatch_conservation : ∀ (evs : List (BatchEv M)) (s : BatchBuffer M),
    ((runBatch evs s).2.flatten ++ (runBatch evs s).1.buffer
      = s.buffer ++ pushedOf evs)
    ∧ (∀ b ∈ (runBatch evs s).2, b ≠ [])
  | [], s => by simp [runBatch, pushedOf]
  | .push m :: evs, s => by
    have ih := runBatch_conservation evs (pushMsg m s)
    simp only [runBatch, pushedOf, pushMsg] at ih ⊢
    rw [ih.1]
    exact ⟨by simp, ih.2⟩
  | .flush :: evs, s => by
    by_cases hb : s.buffer.isEmpty
    · have ih := runBatch_conservation evs s
      have hbe : s.buffer = [] := List.isEmpty_iff.mp hb
      rw [runBatch_flush_empty hb]
      simp only [pushedOf]
      exact ih
    · have ih := runBatch_conservation evs (⟨[]⟩ : BatchBuffer M)
      rw [runBatch_flush_nonempty hb]
      simp only [pushedOf, List.flatten_cons]
      constructor
      · rw [List.append_assoc, ih.1]
        simp
      · intro b hbmem
        rcases List.mem_cons.mp hbmem with hbmem | hbmem
        · subst hbmem
          exact fun hbe => hb (List.isEmpty_iff.mpr hbe)
        · exact ih.2 b hbmem

/-- C3: flushing a buffer holding `N ≥ 1` messages captures and clears the
whole buffer in one synchronous step and submits exactly one batched send
holding all `N` messages in push order; a flush of an empty buffer performs
no send; and over any trace, the batches sent plus the residual buffer are
exactly the pushed messages in order — so messages pushed after a capture
land in the next flush and no message is sent twice.  In particular, in the
trace push ms, flush, push ps, flush the first flush sends exactly `ms` and
the second exactly `ps`. -/
theorem flushBatch_atomicity (M : Type) :
    (∀ (s : BatchBuffer M), s.buffer ≠ [] →
       flushCapture s = (some s.buffer, ⟨[]⟩))
    ∧ (flushCapture (⟨[]⟩ : BatchBuffer M) = (none, ⟨[]⟩))
    ∧ (∀ (evs : List (BatchEv M)) (s : BatchBuffer M),
       (runBatch evs s).2.flatten ++ (runBatch evs s).1.buffer
         = s.buffer ++ pushedOf evs)
    ∧ (∀ (evs : List (BatchEv M)) (s : BatchBuffer M),
       ∀ b ∈ (runBatch evs s).2, b ≠ [])
    ∧ (∀ (ms ps : List M), ms ≠ [] → ps ≠ [] →
       (runBatch ((ms.map BatchEv.push)
          ++ BatchEv.flush :: ((ps.map BatchEv.push) ++ [BatchEv.flush]))
          ⟨[]⟩).2 = [ms, ps]) := by
  refine ⟨?_, ?_, ?_, ?_, ?_⟩
  · intro s hne
    have : ¬ s.buffer.isEmpty := fun hbe => hne (List.isEmpty_iff.mp hbe)
    simp [flushCapture, this]
  · rfl
  · intro evs s; exact (runBatch_conservation evs s).1
  · intro evs s; exact (runBatch_conservation evs s).2
  · intro ms ps hms hps
    rw [runBatch_pushes]
    have hmse : ¬ ((⟨[] ++ ms⟩ : BatchBuffer M).buffer.isEmpty = true) :=
      fun hbe => hms (by simpa using List.isEmpty_iff.mp hbe)
    rw [runBatch_flush_nonempty hmse, runBatch_pushes]
    have hpse : ¬ ((⟨[] ++ ps⟩ : BatchBuffer M).buffer.isEmpty = true) :=
      fun hbe => hps (by simpa using List.isEmpty_iff.mp hbe)
    rw [runBatch_flush_nonempty hpse]
    simp [runBatch]

/-- Witness for C3 at concrete inputs: three pushes then a flush sends one
batch of the three in order; a later push flushes alone in the next flush. -/
theorem flushBatch_atomicity_witness :
    flushCapture (⟨[1, 2, 3]⟩ : BatchBuffer Nat) = (some [1, 2, 3], ⟨[]⟩)
    ∧ (runBatch (([1, 2, 3].map BatchEv.push)
        ++ BatchEv.flush :: (([4].map BatchEv.push) ++ [BatchEv.flush]))
        (⟨[]⟩ : BatchBuffer Nat)).2 = [[1, 2, 3], [4]] := by
  constructor
  · exact (flushBatch_atomicity Nat).1 ⟨[1, 2, 3]⟩ (by decide)
  · exact (flushBatch_atomicity Nat).2.2.2.2 [1, 2, 3] [4] (by decide) (by decide)

-- ═══════════════════════════════════════════════════════════════════════
-- Message dispatch loop (normalizer.ts: eachMessage, DLQ, in-flight set)
-- ═══════════════════════════════════════════════════════════════════════

/-- One entry of the outgoing `batch` array:
`{topic, messages: [{key, value}]}` with its single message inlined. -/
structure BatchEntry where
  topic : String
  key : Option String
  value : String
deriving DecidableEq

/-- The environment of the consumer callback: topic names from the config,
the external JSON codec, the two plugin registries (as populated at
startup), and whether a DLQ publish currently succeeds. -/
structure IngestEnv where
  rawTopic : String
  domainTopic : String
  dlqTopic : String
  parseJson : String → Option JsonVal
  stringify : JsonVal → String
  normalizers : String → Option (JsonVal → Option (List JsonVal))
  upserters : String → Option (JsonVal → Except String Unit)
  dlqOk : Bool

/-- The mutable state the dispatch loop touches: the Prometheus counters it
increments, the batch buffer, the in-flight upsert set (promises named by
the order of their creation), the DLQ topic contents and the structured
log.  Counters are total functions from label(s) to count. -/
structure IngestState where
  consumed : String → Nat
  errors : String → String → Nat
  upserts : Nat
  batch : List BatchEntry
  inFlight : List Nat
  nextPid : Nat
  dlq : List String
  logs : List String

/-- The all-zero, all-empty startup state. -/
def initState : IngestState :=
  ⟨fun _ => 0, fun _ _ => 0, 0, [], [], 0, [], []⟩

/-- Increment `counter.labels(t).inc()`. -/
def bump (f : String → Nat) (t : String) : String → Nat :=
  fun t' => if t' = t then f t' + 1 else f t'

/-- Increment `counter.labels(t, e).inc()`. -/
def bump2 (f : String → String → Nat) (t e : String) : String → String → Nat :=
  fun t' e' => if t' = t ∧ e' = e then f t' e' + 1 else f t' e'

/-- Access `obj.event?.event_type` as the registry key (always a non-empty string
on the paths that reach it, since `DomainEventSchema` has been checked). -/
def eventTypeOf (obj : JsonVal) : String :=
  asStr ((obj.getField ("event")).bind (fun e => e.getField ("event_type")))

/-- The batch entry pushed for one valid candidate:
`{topic: domainTopic, key: ev.event?.fingerprint, value: JSON.stringify(ev)}`. -/
def entryOf (env : IngestEnv) (ev : JsonVal) : BatchEntry :=
  ⟨env.domainTopic,
   optStrField ((ev.getField ("event")).bind (fun e => e.getField ("fingerprint"))),
   env.stringify ev⟩

/-- The per-candidate loop of the RAW branch (`for (const ev of events)`):
validate each candidate against `DomainEventSchema`; on violation throw
`Error` — leaving the candidates already pushed in the batch — otherwise
push its batch entry. -/
def pushEvents (env : IngestEnv) : List JsonVal → IngestState → IngestState × Option String
  | [], st => (st, none)
  | ev :: rest, st =>
    if domainEventValid ev then
      pushEvents env rest { st with batch := st.batch ++ [entryOf env ev] }
    else (st, some ("Error"))

/-- One attempt of the `handle` closure inside `eachMessage`: increment the
consumed counter, `JSON.parse` (a parse failure throws `SyntaxError`), then
branch on the source topic exactly as the source does.  The second
component is the name of the thrown error (`none` = normal return); the
state records every side effect performed up to the throw — the source
rolls nothing back.  In the DOMAIN branch the upsert promise is added to
the in-flight set, awaited, and deleted only after a successful await; a
rejection propagates before the delete. -/
def handleOnce (env : IngestEnv) (topic rawBytes : String) (st : IngestState) :
    IngestState × Option String :=
  let st1 := { st with consumed := bump st.consumed topic }
  match env.parseJson rawBytes with
  | none => (st1, some ("SyntaxError"))
  | some obj =>
    if topic = env.rawTopic then
      if rawMessageValid obj then
        match env.normalizers (asStr (obj.getField ("tool"))) with
        | none => (st1, none)
        | some norm => pushEvents env ((norm obj).getD []) st1
      else (st1, some ("Error"))
    else if topic = env.domainTopic then
      if domainEventValid obj then
        match env.upserters (eventTypeOf obj) with
        | none => (st1, none)
        | some up =>
          let pid := st1.nextPid
          let st2 := { st1 with inFlight := st1.inFlight ++ [pid], nextPid := pid + 1 }
          match up obj with
          | .error e => (st2, some e)
          | .ok _ => ({ st2 with
                        inFlight := st2.inFlight.erase pid
                        upserts := st2.upserts + 1 }, none)
      else (st1, some ("Error"))
    else (st1, none)

/-- The call `retry(handle, {retries: budget})` specialised to the stateful handler:
run one attempt; on failure, if budget remains, retry from the state the
failed attempt left behind.  Total attempts = budget + 1, matching
`retry`. -/
def retryHandle (f : IngestState → IngestState × Option String) :
    Nat → IngestState → IngestState × Option String
  | budget, st =>
    match (f st).2 with
    | none => f st
    | some _ =>
      match budget with
      | 0 => f st
      | b + 1 => retryHandle f b (f st).1

/-- The `eachMessage` consumer callback (lines 293-344 of `normalizer.ts`):
drop messages with no value; otherwise run `handle` under
`retry(handle, {retries: 2})` and, on permanent failure, increment the
processing-error counter labelled by topic and error name, log, and publish
the original raw bytes to the DLQ — a DLQ failure is only logged. -/
def eachMessage (env : IngestEnv) (topic : String) (value : Option String)
    (st : IngestState) : IngestState :=
  match value with
  | none => st
  | some rawBytes =>
    let r := retryHandle (handleOnce env topic rawBytes) 2 st
    match r.2 with
    | none => r.1
    | some ename =>
      let st2 := { r.1 with
                   errors := bump2 r.1.errors topic ename
                   logs := r.1.logs ++ ["failed permanently, sending to DLQ"] }
      if env.dlqOk then { st2 with dlq := st2.dlq ++ [rawBytes] }
      else { st2 with logs := st2.logs ++ ["DLQ publish failed"] }

/-- Consume a sequence of (topic, value) messages in arrival order. -/
def runMessages (env : IngestEnv) : List (String × Option String) → IngestState → IngestState
  | [], st => st
  | (t, v) :: rest, st => runMessages env rest (eachMessage env t v st)

/-- Outcome of a settled promise, as `Promise.allSettled` reports it. -/
inductive Settled (ε : Type) where
  | fulfilled
  | rejected (e : ε)
deriving DecidableEq

/-- Join `Promise.allSettled(ps)`: waits for every promise and reports each
outcome, fulfilled or rejected — never short-circuiting on a failure. -/
def allSettled (ps : List (Except ε Unit)) : List (Settled ε) :=
  ps.map (fun p => match p with
    | .ok _ => Settled.fulfilled
    | .error e => Settled.rejected e)

-- ═══════════════════════════════════════════════════════════════════════
-- Plugin registry (normalizer.ts: validatePluginPath and the load loops)
-- ═══════════════════════════════════════════════════════════════════════

/-- Character class `[a-zA-Z0-9/_-]` of the sanitiser regex. -/
def allowedChar (c : Char) : Bool :=
  ('a'.toNat ≤ c.toNat && c.toNat ≤ 'z'.toNat)
  || ('A'.toNat ≤ c.toNat && c.toNat ≤ 'Z'.toNat)
  || ('0'.toNat ≤ c.toNat && c.toNat ≤ '9'.toNat)
  || c == '/' || c == '_' || c == '-'

/-- Sanitiser `pluginPath.replace` with the class `[^a-zA-Z0-9/_-]`: strip every character
outside the allow-list. -/
def sanitizePath (p : String) : String := ⟨p.data.filter allowedChar⟩

/-- Test `String.prototype.startsWith` (plain string prefix). -/
def startsWithS (s pre : String) : Bool := pre.data.isPrefixOf s.data

/-- Resolution `path.resolve(base, rel)` on the inputs reachable here: sanitised
paths contain no `.` (so no traversal segments); we additionally consider
only inputs without duplicate or trailing slashes, on which resolve is
plain concatenation, with absolute `rel` taken as-is. -/
def resolvePath (base rel : String) : String :=
  if rel = "" then base
  else if rel.data.head? = some '/' then rel
  else base ++ "/" ++ rel

/-- Function `validatePluginPath` from `normalizer.ts`: sanitise, resolve against
the module directory, and accept iff the resolved path has the resolved
base directory as a string prefix; `Except.error` models the throw. -/
def validatePluginPath (dirname baseDir pluginPath : String) : Except String String :=
  let cleanPath := sanitizePath pluginPath
  let fullPath := resolvePath dirname cleanPath
  let basePath := resolvePath dirname baseDir
  if startsWithS fullPath basePath then Except.ok cleanPath
  else Except.error ("Invalid plugin path")

/-- True filesystem containment of `p` in the directory `base` (what "no
module outside the base directory" means): equal to it, or below it past a
path separator. -/
def underDir (base p : String) : Bool :=
  (p == base) || startsWithS p (base ++ "/")

/-- One plugin-load loop of `normalizer.ts` (both the normalizer and the
upserter loops have this shape): per entry, validate the configured path
and dynamically import it — `imports` is the module system, `none` meaning
the import threw — registering `module.default` on success and logging one
warning and skipping the entry on any failure.  Returns the registered
handlers in load order and the number of warnings. -/
def loadRegistry (H : Type) (dirname baseDir : String) (imports : String → Option H) :
    List (String × String) → List (String × H) × Nat
  | [] => ([], 0)
  | (name, modPath) :: rest =>
    let r := loadRegistry H dirname baseDir imports rest
    match validatePluginPath dirname baseDir modPath with
    | .error _ => (r.1, r.2 + 1)
    | .ok safePath =>
      match imports safePath with
      | none => (r.1, r.2 + 1)
      | some h => ((name, h) :: r.1, r.2)

/-- The per-entry outcome of the load loop: the registered pair, or `none`
when the entry is skipped with a warning. -/
def regOutcome (H : Type) (dirname baseDir : String) (imports : String → Option H)
    (e : String × String) : Option (String × H) :=
  match validatePluginPath dirname baseDir e.2 with
  | .error _ => none
  | .ok safePath => (imports safePath).map (fun h => (e.1, h))

-- ═══════════════════════════════════════════════════════════════════════
-- C10: tombstone handling
-- ═══════════════════════════════════════════════════════════════════════

/-- Environment with no registered plugins in which every payload fails to
parse (used for concrete evaluations of the failure paths). -/
def c10Env : IngestEnv where
  rawTopic := "raw"
  domainTopic := "domain"
  dlqTopic := "dlq"
  parseJson := fun _ => none
  stringify := fun _ => ""
  normalizers := fun _ => none
  upserters := fun _ => none
  dlqOk := true

/-- C10 counterexample: a zero-length (but non-null) message value is NOT
dropped: `!message.value` is false for an empty Buffer, so the handler runs,
the consumed counter is incremented (three times, once per retry attempt,
since the empty string fails `JSON.parse`) and the message ends up on the
DLQ. -/
theorem eachMessage_empty_value_counterexample :
    (eachMessage c10Env ("raw") (some ("")) initState).consumed ("raw") = 3
    ∧ (eachMessage c10Env ("raw") (some ("")) initState).dlq = [""] := by
  exact ⟨rfl, rfl⟩

/-- C10 (amended): only a null (absent) message value is dropped with no
observable effect at all; a zero-length value is processed: each of the
three attempts increments the consumed counter, parsing fails with
`SyntaxError`, the error counter labelled (topic, "SyntaxError") is
incremented once, and the empty payload is published to the DLQ. -/
theorem eachMessage_tombstone (env : IngestEnv) :
    (∀ topic st, eachMessage env topic none st = st)
    ∧ (∀ topic st, env.parseJson ("") = none → env.dlqOk = true →
        (eachMessage env topic (some ("")) st).consumed topic = st.consumed topic + 3
        ∧ (eachMessage env topic (some ("")) st).errors topic ("SyntaxError")
            = st.errors topic ("SyntaxError") + 1
        ∧ (eachMessage env topic (some ("")) st).dlq = st.dlq ++ [""]) := by
  constructor
  · intro topic st; rfl
  · intro topic st hp hdlq
    have hf : ∀ s, handleOnce env topic ("") s
        = ({ s with consumed := bump s.consumed topic }, some ("SyntaxError")) := by
      intro s
      simp [handleOnce, hp]
    have hr : retryHandle (handleOnce env topic ("")) 2 st
        = ({ st with consumed := bump (bump (bump st.consumed topic) topic) topic },
           some ("SyntaxError")) := by
      simp [retryHandle, hf]
    refine ⟨?_, ?_, ?_⟩
    · simp [eachMessage, hr, hdlq, bump]
    · simp [eachMessage, hr, hdlq, bump2]
    · simp [eachMessage, hr, hdlq]

/-- Witness for C10: on a concrete environment a null value leaves the
state untouched, and a zero-length value is consumed three times and
dead-lettered. -/
theorem eachMessage_tombstone_witness :
    eachMessage c10Env ("raw") none initState = initState
    ∧ (eachMessage c10Env ("raw") (some ("")) initState).errors ("raw") "SyntaxError"
        = initState.errors ("raw") "SyntaxError" + 1 := by
  constructor
  · exact (eachMessage_tombstone c10Env).1 ("raw") initState
  · exact ((eachMessage_tombstone c10Env).2 ("raw") initState rfl rfl).2.1

-- ═══════════════════════════════════════════════════════════════════════
-- C5: candidate validation is fail-fast but does not roll back pushes
-- ═══════════════════════════════════════════════════════════════════════

/-- A candidate event that satisfies the generic `DomainEventSchema`. -/
def goodEv : JsonVal :=
  .jobj [("specVersion", .jstr ("1")),
         ("event", .jobj [("event_type", .jstr ("E")), ("fingerprint", .jstr ("f"))]),
         ("meta", .jobj [])]

/-- A candidate event that violates the schema. -/
def badEv : JsonVal := .jnull

/-- A RAW envelope that passes `RawMessageSchema`. -/
def c5Raw : JsonVal := .jobj [("tool", .jstr ("t")), ("runId", .jstr ("r"))]

/-- Environment whose normalizer for tool `t` emits one valid candidate
followed by one invalid candidate. -/
def c5Env : IngestEnv where
  rawTopic := "raw"
  domainTopic := "domain"
  dlqTopic := "dlq"
  parseJson := fun s => if s = "m" then some c5Raw else none
  stringify := fun _ => "J"
  normalizers := fun t => if t = "t" then some (fun _ => some [goodEv, badEv]) else none
  upserters := fun _ => none
  dlqOk := true

/-- C5 counterexample: when the normalizer returns a valid candidate before
an invalid one, the dispatch attempt fails for the whole message — but the
valid candidate HAS been pushed into the batch buffer by that attempt, and
the two retries push it twice more. -/
theorem dispatch_candidate_counterexample :
    (handleOnce c5Env ("raw") "m" initState).2 = some ("Error")
    ∧ (handleOnce c5Env ("raw") "m" initState).1.batch = [entryOf c5Env goodEv]
    ∧ (eachMessage c5Env ("raw") (some ("m")) initState).batch
        = [entryOf c5Env goodEv, entryOf c5Env goodEv, entryOf c5Env goodEv] := by
  exact ⟨rfl, rfl, rfl⟩

/-- C5 (amended): the candidate loop is fail-fast — candidates from the
first schema-invalid one onward are not pushed and the whole message fails
with `Error` — but candidates preceding the first invalid one have already
been pushed by that attempt (and are pushed again by each retry); only a
message whose candidates are all valid pushes exactly its candidate list. -/
theorem pushEvents_spec (env : IngestEnv) :
    (∀ events st, (∀ ev ∈ events, domainEventValid ev = true) →
      pushEvents env events st
        = ({ st with batch := st.batch ++ events.map (entryOf env) }, none))
    ∧ (∀ good bad rest st, (∀ ev ∈ good, domainEventValid ev = true) →
      domainEventValid bad = false →
      pushEvents env (good ++ bad :: rest) st
        = ({ st with batch := st.batch ++ good.map (entryOf env) }, some ("Error"))) := by
  constructor
  · intro events
    induction events with
    | nil => intro st _; simp [pushEvents]
    | cons ev rest ih =>
      intro st hall
      have hv : domainEventValid ev = true := hall ev (List.mem_cons_self _ _)
      rw [pushEvents, if_pos hv, ih _ (fun x hx => hall x (List.mem_cons_of_mem _ hx))]
      simp
  · intro good
    induction good with
    | nil =>
      intro bad rest st _ hbad
      simp [pushEvents, hbad]
    | cons ev tail ih =>
      intro bad rest st hall hbad
      have hv : domainEventValid ev = true := hall ev (List.mem_cons_self _ _)
      rw [List.cons_append, pushEvents, if_pos hv,
        ih bad rest _ (fun x hx => hall x (List.mem_cons_of_mem _ hx)) hbad]
      simp

/-- Witness for C5 at concrete inputs: an all-valid candidate list pushes
exactly its entries; a list with a trailing invalid candidate pushes the
valid head and fails. -/
theorem pushEvents_spec_witness :
    pushEvents c5Env [goodEv] initState
      = ({ initState with batch := initState.batch ++ [goodEv].map (entryOf c5Env) }, none)
    ∧ pushEvents c5Env ([goodEv] ++ badEv :: []) initState
      = ({ initState with batch := initState.batch ++ [goodEv].map (entryOf c5Env) },
         some ("Error")) := by
  constructor
  · exact (pushEvents_spec c5Env).1 [goodEv] initState
      (by intro ev hev; rw [List.mem_singleton.mp hev]; rfl)
  · exact (pushEvents_spec c5Env).2 [goodEv] badEv [] initState
      (by intro ev hev; rw [List.mem_singleton.mp hev]; rfl) rfl

-- ═══════════════════════════════════════════════════════════════════════
-- C6: in-flight set add/remove discipline and shutdown drain
-- ═══════════════════════════════════════════════════════════════════════

/-- Environment with an upserter for event type `E` that always rejects. -/
def c6Env : IngestEnv where
  rawTopic := "raw"
  domainTopic := "domain"
  dlqTopic := "dlq"
  parseJson := fun s => if s = "d" then some goodEv else none
  stringify := fun _ => "J"
  normalizers := fun _ => none
  upserters := fun t => if t = "E" then some (fun _ => Except.error ("UpsertFailed")) else none
  dlqOk := true

/-- Environment with an upserter for event type `E` that always fulfills. -/
def c6EnvOk : IngestEnv where
  rawTopic := "raw"
  domainTopic := "domain"
  dlqTopic := "dlq"
  parseJson := fun s => if s = "d" then some goodEv else none
  stringify := fun _ => "J"
  normalizers := fun _ => none
  upserters := fun t => if t = "E" then some (fun _ => Except.ok ()) else none
  dlqOk := true

/-- C6 counterexample: when the upsert promise rejects, the `await p`
throws before `inFlightUpserts.delete(p)` runs, so the settled (rejected)
promise is NOT removed from the in-flight set — and the two retries leak
two more entries. -/
theorem inFlight_settle_counterexample :
    (handleOnce c6Env ("domain") "d" initState).2 = some ("UpsertFailed")
    ∧ (handleOnce c6Env ("domain") "d" initState).1.inFlight = [0]
    ∧ (eachMessage c6Env ("domain") (some ("d")) initState).inFlight = [0, 1, 2] := by
  exact ⟨rfl, rfl, rfl⟩

theorem allSettled_rejected_mem (ps : List (Except ε Unit)) (e : ε) :
    Settled.rejected e ∈ allSettled ps ↔ Except.error e ∈ ps := by
  induction ps with
  | nil => simp [allSettled]
  | cons p rest ih =>
    cases p with
    | ok u =>
      simp only [allSettled, List.map_cons, List.mem_cons] at ih ⊢
      constructor
      · rintro (h | h)
        · exact absurd h (by simp)
        · exact Or.inr (ih.mp h)
      · rintro (h | h)
        · exact absurd h (by simp)
        · exact Or.inr (ih.mpr h)
    | error e' =>
      simp only [allSettled, List.map_cons, List.mem_cons] at ih ⊢
      constructor
      · rintro (h | h)
        · injection h with h'
          exact Or.inl (by rw [h'])
        · exact Or.inr (ih.mp h)
      · rintro (h | h)
        · injection h with h'
          exact Or.inl (by rw [h'])
        · exact Or.inr (ih.mpr h)

/-- C6 (amended): the upsert promise is added to the in-flight set when the
upserter is invoked; it is removed only when the promise FULFILLS — a
rejected promise stays in the set even though it has settled (the delete is
skipped when the await throws).  The shutdown drain itself is a settle-all
join: `Promise.allSettled` reports one outcome per tracked promise and
observes every rejection rather than short-circuiting. -/
theorem inFlight_tracking (env : IngestEnv) (topic raw : String) (st : IngestState)
    (obj : JsonVal) (up : JsonVal → Except String Unit)
    (h1 : ¬ topic = env.rawTopic) (h2 : topic = env.domainTopic)
    (hp : env.parseJson raw = some obj) (hv : domainEventValid obj = true)
    (hu : env.upserters (eventTypeOf obj) = some up)
    (hfresh : st.nextPid ∉ st.inFlight) :
    ((∀ u, up obj = Except.ok u →
       (handleOnce env topic raw st).1.inFlight = st.inFlight
       ∧ (handleOnce env topic raw st).1.upserts = st.upserts + 1
       ∧ (handleOnce env topic raw st).2 = none)
     ∧ (∀ e, up obj = Except.error e →
       (handleOnce env topic raw st).1.inFlight = st.inFlight ++ [st.nextPid]
       ∧ (handleOnce env topic raw st).2 = some e))
    ∧ (∀ ps : List (Except String Unit),
       (allSettled ps).length = ps.length
       ∧ (∀ e, Settled.rejected e ∈ allSettled ps ↔ Except.error e ∈ ps)) := by
  have herase : (st.inFlight ++ [st.nextPid]).erase st.nextPid = st.inFlight := by
    rw [List.erase_append_right _ hfresh]
    simp
  subst h2
  refine ⟨⟨?_, ?_⟩, ?_⟩
  · intro u hok
    refine ⟨?_, ?_, ?_⟩ <;>
      simp [handleOnce, hp, h1, hv, hu, hok, herase]
  · intro e herr
    refine ⟨?_, ?_⟩ <;>
      simp [handleOnce, hp, h1, hv, hu, herr]
  · intro ps
    exact ⟨by simp [allSettled], fun e => allSettled_rejected_mem ps e⟩

/-- Witness for C6 at concrete inputs: a fulfilling upsert leaves the set
as it was and counts a success; a rejecting upsert leaves its promise id in
the set and surfaces the error. -/
theorem inFlight_tracking_witness :
    ((handleOnce c6EnvOk ("domain") "d" initState).1.inFlight = initState.inFlight
      ∧ (handleOnce c6EnvOk ("domain") "d" initState).1.upserts = initState.upserts + 1
      ∧ (handleOnce c6EnvOk ("domain") "d" initState).2 = none)
    ∧ ((handleOnce c6Env ("domain") "d" initState).1.inFlight
        = initState.inFlight ++ [initState.nextPid]
      ∧ (handleOnce c6Env ("domain") "d" initState).2 = some ("UpsertFailed")) := by
  constructor
  · exact (inFlight_tracking c6EnvOk ("domain") "d" initState goodEv (fun _ => Except.ok ())
      (by decide) rfl rfl rfl rfl (by simp [initState])).1.1 () rfl
  · exact (inFlight_tracking c6Env ("domain") "d" initState goodEv
      (fun _ => Except.error ("UpsertFailed"))
      (by decide) rfl rfl rfl rfl (by simp [initState])).1.2 ("UpsertFailed") rfl

-- ═══════════════════════════════════════════════════════════════════════
-- C4: retry exhaustion routes to the DLQ, best-effort
-- ═══════════════════════════════════════════════════════════════════════

theorem pushEvents_frame (env : IngestEnv) : ∀ (events : List JsonVal) (st : IngestState),
    (pushEvents env events st).1.errors = st.errors
    ∧ (pushEvents env events st).1.dlq = st.dlq
    ∧ (pushEvents env events st).1.logs = st.logs
  | [], st => ⟨rfl, rfl, rfl⟩
  | ev :: rest, st => by
    by_cases hv : domainEventValid ev
    · rw [pushEvents, if_pos hv]
      exact pushEvents_frame env rest _
    · rw [pushEvents, if_neg hv]
      exact ⟨rfl, rfl, rfl⟩

theorem handleOnce_frame (env : IngestEnv) (topic raw : String) (st : IngestState) :
    (handleOnce env topic raw st).1.errors = st.errors
    ∧ (handleOnce env topic raw st).1.dlq = st.dlq
    ∧ (handleOnce env topic raw st).1.logs = st.logs := by
  cases hp : env.parseJson raw with
  | none => simp [handleOnce, hp]
  | some obj =>
    by_cases h1 : topic = env.rawTopic
    · subst h1
      by_cases hr : rawMessageValid obj
      · cases hn : env.normalizers (asStr (obj.getField ("tool"))) with
        | none => simp [handleOnce, hp, hr, hn]
        | some norm =>
          have hframe := pushEvents_frame env ((norm obj).getD [])
            { st with consumed := bump st.consumed env.rawTopic }
          simp only [handleOnce, hp, hr, hn]
          simpa using hframe
      · simp [handleOnce, hp, hr]
    · by_cases h2 : topic = env.domainTopic
      · subst h2
        by_cases hv : domainEventValid obj
        · cases hu : env.upserters (eventTypeOf obj) with
          | none => simp [handleOnce, hp, h1, hv, hu]
          | some up =>
            cases hup : up obj with
            | error e => simp [handleOnce, hp, h1, hv, hu, hup]
            | ok u => simp [handleOnce, hp, h1, hv, hu, hup]
        · simp [handleOnce, hp, h1, hv]
      · simp [handleOnce, hp, h1, h2]

theorem retryHandle_fail (f : IngestState → IngestState × Option String) (e : String)
    (hf : ∀ s, (f s).2 = some e)
    (hframe : ∀ s, (f s).1.errors = s.errors ∧ (f s).1.dlq = s.dlq ∧ (f s).1.logs = s.logs) :
    ∀ (b : Nat) (st : IngestState),
    (retryHandle f b st).2 = some e
    ∧ (retryHandle f b st).1.errors = st.errors
    ∧ (retryHandle f b st).1.dlq = st.dlq
    ∧ (retryHandle f b st).1.logs = st.logs := by
  intro b
  induction b with
  | zero =>
    intro st
    have hz : retryHandle f 0 st = f st := by
      simp [retryHandle, hf st]
    rw [hz]
    exact ⟨hf st, (hframe st).1, (hframe st).2.1, (hframe st).2.2⟩
  | succ b ih =>
    intro st
    have hs : retryHandle f (b + 1) st = retryHandle f b (f st).1 := by
      simp [retryHandle, hf st]
    rw [hs]
    obtain ⟨a1, a2, a3, a4⟩ := ih (f st).1
    refine ⟨a1, ?_, ?_, ?_⟩
    · rw [a2]; exact (hframe st).1
    · rw [a3]; exact (hframe st).2.1
    · rw [a4]; exact (hframe st).2.2

/-- C4: when every attempt at dispatching a message fails (the error name
of an attempt depends only on the message, not on the accumulated state),
the consumer callback increments the processing-error counter exactly at
the label (source topic, error name), publishes the exact consumed raw
bytes to the DLQ when the DLQ publish succeeds, and when the DLQ publish
itself fails it only appends a log entry — the callback still returns
normally and the processing of any subsequent message is untouched. -/
theorem dlq_on_retry_exhaustion (env : IngestEnv) (topic raw : String)
    (st : IngestState) (e : String)
    (hfail : ∀ s, (handleOnce env topic raw s).2 = some e) :
    ((eachMessage env topic (some raw) st).errors topic e = st.errors topic e + 1)
    ∧ (∀ t' e', ¬(t' = topic ∧ e' = e) →
        (eachMessage env topic (some raw) st).errors t' e' = st.errors t' e')
    ∧ (env.dlqOk = true →
        (eachMessage env topic (some raw) st).dlq = st.dlq ++ [raw])
    ∧ (env.dlqOk = false →
        (eachMessage env topic (some raw) st).dlq = st.dlq
        ∧ (eachMessage env topic (some raw) st).logs
            = st.logs ++ ["failed permanently, sending to DLQ", "DLQ publish failed"])
    ∧ (∀ rest, runMessages env ((topic, some raw) :: rest) st
        = runMessages env rest (eachMessage env topic (some raw) st)) := by
  obtain ⟨h2, herr, hdlq, hlogs⟩ := retryHandle_fail (handleOnce env topic raw) e hfail
    (fun s => handleOnce_frame env topic raw s) 2 st
  have hE : ∀ st', eachMessage env topic (some raw) st'
      = (match (retryHandle (handleOnce env topic raw) 2 st').2 with
         | none => (retryHandle (handleOnce env topic raw) 2 st').1
         | some ename =>
           let r1 := (retryHandle (handleOnce env topic raw) 2 st').1
           let st2 := { r1 with
                        errors := bump2 r1.errors topic ename
                        logs := r1.logs ++ ["failed permanently, sending to DLQ"] }
           if env.dlqOk then { st2 with dlq := st2.dlq ++ [raw] }
           else { st2 with logs := st2.logs ++ ["DLQ publish failed"] }) := by
    intro st'
    rfl
  refine ⟨?_, ?_, ?_, ?_, fun rest => rfl⟩
  · rw [hE st, h2]
    cases hok : env.dlqOk <;> simp [hok, herr, bump2]
  · intro t' e' hne
    rw [hE st, h2]
    cases hok : env.dlqOk <;> simp [hok, herr, bump2, hne]
  · intro hok
    rw [hE st, h2]
    simp [hok, hdlq]
  · intro hok
    rw [hE st, h2]
    simp [hok, hdlq, hlogs]

/-- Environment in which every payload fails to parse and the DLQ publish
itself fails. -/
def c4Env : IngestEnv where
  rawTopic := "raw"
  domainTopic := "domain"
  dlqTopic := "dlq"
  parseJson := fun _ => none
  stringify := fun _ => ""
  normalizers := fun _ => none
  upserters := fun _ => none
  dlqOk := false

/-- Witness for C4 at concrete inputs: with a failing DLQ the error counter
still ticks at (topic, SyntaxError), nothing lands on the DLQ, the failure
is logged, and the next message is processed as usual; with a working DLQ
(`c10Env`) the raw bytes land on the DLQ verbatim. -/
theorem dlq_on_retry_exhaustion_witness :
    (eachMessage c4Env ("raw") (some ("x")) initState).errors ("raw") "SyntaxError"
      = initState.errors ("raw") "SyntaxError" + 1
    ∧ (eachMessage c4Env ("raw") (some ("x")) initState).dlq = initState.dlq
    ∧ (eachMessage c4Env ("raw") (some ("x")) initState).logs
      = initState.logs ++ ["failed permanently, sending to DLQ", "DLQ publish failed"]
    ∧ runMessages c4Env [("raw", some ("x")), ("raw", some ("y"))] initState
      = runMessages c4Env [("raw", some ("y"))] (eachMessage c4Env ("raw") (some ("x")) initState)
    ∧ (eachMessage c10Env ("raw") (some ("x")) initState).dlq = initState.dlq ++ ["x"] := by
  have h1 := dlq_on_retry_exhaustion c4Env ("raw") "x" initState ("SyntaxError") (fun s => rfl)
  have h2 := dlq_on_retry_exhaustion c10Env ("raw") "x" initState ("SyntaxError") (fun s => rfl)
  exact ⟨h1.1, (h1.2.2.2.1 rfl).1, (h1.2.2.2.1 rfl).2,
    h1.2.2.2.2 [("raw", some ("y"))], h2.2.2.1 rfl⟩

-- ═══════════════════════════════════════════════════════════════════════
-- C7: plugin registry loading and the path-containment check
-- ═══════════════════════════════════════════════════════════════════════

/-- C7 counterexample: the containment check is a plain string-prefix test,
so the configured path `plugins-evil/mod` — whose resolved path
`/app/plugins-evil/mod` is NOT inside the base directory `/app/plugins` —
passes validation, and its module is imported and registered: a module
outside the base directory is loaded. -/
theorem validatePluginPath_counterexample :
    validatePluginPath ("/app") "plugins" "plugins-evil/mod" = Except.ok ("plugins-evil/mod")
    ∧ underDir (resolvePath ("/app") "plugins") (resolvePath ("/app") "plugins-evil/mod") = false
    ∧ loadRegistry Nat ("/app") "plugins"
        (fun p => if p == "plugins-evil/mod" then some 7 else none)
        [("evil", "plugins-evil/mod")] = ([("evil", 7)], 0) := by
  exact ⟨rfl, rfl, rfl⟩

/-- C7 (amended): the registry load registers a handler exactly for the
entries whose sanitised path passes the string-prefix check against the
resolved base directory and whose import succeeds; every other entry is
skipped with one logged warning and the load never aborts (in particular a
three-entry map with one failing import yields exactly two handlers and one
warning).  Every accepted path is sanitised and its resolution carries the
resolved base directory as a string prefix — but a string prefix does not
imply directory containment (see the counterexample), so the original
final clause fails. -/
theorem loadRegistry_spec (H : Type) (dirname baseDir : String)
    (imports : String → Option H) :
    (∀ entries, loadRegistry H dirname baseDir imports entries
       = (entries.filterMap (regOutcome H dirname baseDir imports),
          (entries.filter
            (fun en => (regOutcome H dirname baseDir imports en).isNone)).length))
    ∧ (∀ p clean, validatePluginPath dirname baseDir p = Except.ok clean →
        clean = sanitizePath p
        ∧ startsWithS (resolvePath dirname clean) (resolvePath dirname baseDir) = true)
    ∧ (loadRegistry Nat ("/app") "plugins"
        (fun p => if p == "plugins/a" then some 1
                  else if p == "plugins/c" then some 3 else none)
        [("a", "plugins/a"), ("b", "plugins/b"), ("c", "plugins/c")]
        = ([("a", 1), ("c", 3)], 1)) := by
  refine ⟨?_, ?_, rfl⟩
  · intro entries
    induction entries with
    | nil => rfl
    | cons en rest ih =>
      obtain ⟨name, modPath⟩ := en
      simp only [loadRegistry, List.filterMap_cons, List.filter_cons]
      cases hval : validatePluginPath dirname baseDir modPath with
      | error msg =>
        simp [regOutcome, hval, ih]
      | ok safePath =>
        cases him : imports safePath with
        | none => simp [regOutcome, hval, him, ih]
        | some h => simp [regOutcome, hval, him, ih]
  · intro p clean hok
    unfold validatePluginPath at hok
    by_cases hc : startsWithS (resolvePath dirname (sanitizePath p))
        (resolvePath dirname baseDir) = true
    · rw [if_pos hc] at hok
      injection hok with hok'
      subst hok'
      exact ⟨rfl, hc⟩
    · rw [if_neg hc] at hok
      cases hok

/-- Witness for C7 at concrete inputs: a well-formed entry is accepted with
its sanitised path prefix-contained under the base, and a single-entry load
registers it with no warning. -/
theorem loadRegistry_spec_witness :
    ("plugins/a" = sanitizePath ("plugins/a")
      ∧ startsWithS (resolvePath ("/app") "plugins/a") (resolvePath ("/app") "plugins") = true)
    ∧ loadRegistry Nat ("/app") "plugins" (fun _ => some 0) [("a", "plugins/a")]
        = ([("a", 0)], 0) := by
  constructor
  · exact (loadRegistry_spec Nat ("/app") "plugins" (fun _ => some 0)).2.1
      "plugins/a" "plugins/a" rfl
  · rw [(loadRegistry_spec Nat ("/app") "plugins" (fun _ => some 0)).1 [("a", "plugins/a")]]
    rfl
